import Mathlib

/-!
Verification of the WeeChat relay-protocol codec contained in
src/py3status/modules/weechat_hotbar.py (classes Py3status and Protocol).

The embedding models Python 3 semantics shallowly:
* a bytes object is a List Nat (each element in [0, 255]);
* a str object is a List Char (Python strings are sequences of codepoints);
* raised exceptions are Except errors;
* the decoder state self.data is passed explicitly through every function.

All definitions are translated from the source file; the zlib inflate step is
the only external-library call and is taken as an explicit function parameter.
-/

/-- Python buffer state of the decoder, the self.data bytes object. -/
abbrev St := List Nat

/-- The Python exceptions that the codec under src can raise. -/
inductive PyErr where
  /-- KeyError from a dict lookup miss (unknown 3-char type tag). -/
  | keyError (tag : List Char)
  /-- TypeError from struct.unpack applied to a str instead of bytes. -/
  | typeError
  /-- ValueError, e.g. from int applied to a non-numeric string. -/
  | valueError (s : List Char)
  /-- struct.error from struct.unpack on a buffer of the wrong size. -/
  | structError
  /-- IndexError from indexing past the end of a Python list. -/
  | indexError
  /-- UnicodeDecodeError from bytes.decode on invalid UTF-8. -/
  | unicodeError
  /-- Recursion-depth guard of the embedding; unreachable for the fuel
  values used by the top-level entry points (depth is bounded by the
  buffer length, see the dispatch wrapper below). -/
  | outOfFuel
  deriving DecidableEq, Repr

/-- Decoded Python values produced by the Protocol decoders: None, ints
(char, int, long, time), str (str, buffer, pointer), lists, insertion-ordered
dicts (WeechatDict), and the 2-tuples returned for info objects. -/
inductive PyValue where
  | null
  | int (n : Int)
  | str (s : List Char)
  | list (xs : List PyValue)
  | dict (entries : List (PyValue × PyValue))
  | tup (a b : PyValue)

/-- Embed the result of a decoder that returns None or a str. -/
def optStrVal : Option (List Char) → PyValue
  | none => .null
  | some cs => .str cs

/-- Embed the result of a decoder that returns None or an int. -/
def optIntVal : Option Int → PyValue
  | none => .null
  | some n => .int n

/-- Python hashability of a decoded value: None, ints, strs, and tuples of
hashable values can be dict keys; lists and dicts raise TypeError. -/
def hashableKey : PyValue → Bool
  | .null | .int _ | .str _ => true
  | .tup a b => hashableKey a && hashableKey b
  | _ => false

/-- Python equality between hashable decoded values (the only values the
codec ever uses as dict keys); values of different types compare unequal. -/
def keyEq : PyValue → PyValue → Bool
  | .null, .null => true
  | .int m, .int n => m == n
  | .str s, .str t => s == t
  | .tup a b, .tup c d => keyEq a c && keyEq b d
  | _, _ => false

/-- Assignment d[k] = v on an insertion-ordered Python dict: an existing key
keeps its position (and its stored key object), a new key is appended. -/
def dictSet : List (PyValue × PyValue) → PyValue → PyValue → List (PyValue × PyValue)
  | [], k, v => [(k, v)]
  | (k', v') :: rest, k, v =>
      if keyEq k' k then (k', v) :: rest else (k', v') :: dictSet rest k v

/-- Big-endian unsigned integer value of a byte list. -/
def beNat (bs : List Nat) : Nat := bs.foldl (fun a b => a * 256 + b) 0

/-- struct.unpack of format >i on exactly four bytes: signed 32-bit big-endian. -/
def int32 (bs : List Nat) : Int :=
  if beNat bs < 2 ^ 31 then (beNat bs : Int) else (beNat bs : Int) - 2 ^ 32

/-- struct.unpack of format b on one byte: signed 8-bit. -/
def int8 (b : Nat) : Int := if b < 128 then (b : Int) else (b : Int) - 256

/-- The 4 big-endian bytes of struct.pack of format >i for an in-range
value (the byte computation only; the range check of struct.pack is
packInt32Checked below). -/
def packInt32 (n : Int) : List Nat :=
  let u := (n % (2 ^ 32)).toNat
  [u / 2 ^ 24 % 256, u / 2 ^ 16 % 256, u / 2 ^ 8 % 256, u % 256]

/-- struct.pack of format >i including its range check: a value outside
the signed 32-bit range raises struct.error. -/
def packInt32Checked (n : Int) : Except PyErr (List Nat) :=
  if n < -(2 ^ 31) ∨ 2 ^ 31 ≤ n then .error .structError
  else .ok (packInt32 n)

/-- The expression "".join(map(chr, list(value))) of _obj_len_data: each byte
becomes the single codepoint chr(b), a per-byte Latin-1 style decoding. -/
def bytesChr (bs : List Nat) : List Char := bs.map Char.ofNat

/-- Is a byte a UTF-8 continuation byte (10xxxxxx)? -/
def isCont (b : Nat) : Bool := 128 ≤ b && b < 192

/-- Validity of the middle bytes of a 3-byte UTF-8 sequence led by b. -/
def utf8Valid3 (b c1 c2 : Nat) : Bool :=
  isCont c2 &&
    (if b = 224 then 160 ≤ c1 && c1 ≤ 191
     else if b = 237 then 128 ≤ c1 && c1 ≤ 159
     else isCont c1)

/-- Validity of the trailing bytes of a 4-byte UTF-8 sequence led by b. -/
def utf8Valid4 (b c1 c2 c3 : Nat) : Bool :=
  isCont c2 && isCont c3 &&
    (if b = 240 then 144 ≤ c1 && c1 ≤ 191
     else if b = 244 then 128 ≤ c1 && c1 ≤ 143
     else isCont c1)

/-- Strict UTF-8 decoding as performed by bytes.decode in Python: returns
none exactly on invalid input (models UnicodeDecodeError). -/
def utf8Decode : List Nat → Option (List Char)
  | [] => some []
  | b :: rest =>
    if b < 128 then
      (utf8Decode rest).map (fun cs => Char.ofNat b :: cs)
    else if 194 ≤ b && b ≤ 223 then
      match rest with
      | c1 :: rest1 =>
        if isCont c1 then
          (utf8Decode rest1).map (fun cs => Char.ofNat ((b - 192) * 64 + (c1 - 128)) :: cs)
        else none
      | [] => none
    else if 224 ≤ b && b ≤ 239 then
      match rest with
      | c1 :: c2 :: rest2 =>
        if utf8Valid3 b c1 c2 then
          (utf8Decode rest2).map
            (fun cs => Char.ofNat (((b - 224) * 64 + (c1 - 128)) * 64 + (c2 - 128)) :: cs)
        else none
      | _ => none
    else if 240 ≤ b && b ≤ 244 then
      match rest with
      | c1 :: c2 :: c3 :: rest3 =>
        if utf8Valid4 b c1 c2 c3 then
          (utf8Decode rest3).map
            (fun cs =>
              Char.ofNat ((((b - 240) * 64 + (c1 - 128)) * 64 + (c2 - 128)) * 64 + (c3 - 128)) :: cs)
        else none
      | _ => none
    else none

/-- int applied to a digit string: all-decimal-digit value, or none. -/
def digitsVal : List Char → Option Nat
  | [] => none
  | cs => cs.foldl (fun a c => match a with
      | none => none
      | some n => if c.isDigit then some (n * 10 + (c.toNat - 48)) else none)
      (some 0)

/-- Python int(s) on str input: optional sign then decimal digits, raising
ValueError otherwise.  (CPython also strips surrounding whitespace and allows
underscore digit grouping; the wire format never produces either.) -/
def pyIntParse (s : List Char) : Except PyErr Int :=
  match s with
  | '-' :: rest =>
    match digitsVal rest with
    | some n => .ok (-(n : Int))
    | none => .error (.valueError s)
  | '+' :: rest =>
    match digitsVal rest with
    | some n => .ok ((n : Int))
    | none => .error (.valueError s)
  | _ =>
    match digitsVal s with
    | some n => .ok ((n : Int))
    | none => .error (.valueError s)

/-- Python single-character str.split: s.split(sep) splitting at every
occurrence; the empty string yields a single empty group. -/
def pySplit (sep : Char) : List Char → List (List Char)
  | [] => [[]]
  | c :: rest =>
    match pySplit sep rest with
    | [] => [[c]]
    | g :: gs => if c = sep then [] :: g :: gs else (c :: g) :: gs

namespace Protocol

/-! ### Primitive decoders (Protocol._obj_type .. _obj_info)

Each function takes the current self.data buffer and returns its result
together with the buffer that self.data holds afterwards. -/

/-- Protocol._obj_type: read a 3-char type tag.  With fewer than 3 bytes it
sets self.data to the empty buffer and returns the empty tag; otherwise the
3 bytes are UTF-8 decoded (self.data[0:3].decode()). -/
def _obj_type (s : St) : Except PyErr (List Char × St) :=
  if s.length < 3 then .ok ([], [])
  else
    match utf8Decode (s.take 3) with
    | none => .error .unicodeError
    | some t => .ok (t, s.drop 3)

/-- Protocol._obj_int: read a signed big-endian 32-bit integer.  With fewer
than 4 bytes it sets self.data to the empty buffer and returns 0. -/
def _obj_int (s : St) : Int × St :=
  if s.length < 4 then (0, [])
  else (int32 (s.take 4), s.drop 4)

/-- Protocol._obj_char: read one signed byte; with an empty buffer it
returns 0 and leaves self.data unchanged. -/
def _obj_char (s : St) : Int × St :=
  if s.length < 1 then (0, s)
  else (int8 (s.headD 0), s.drop 1)

/-- Protocol._obj_len_data: read a length (1 unsigned byte, or 4 bytes via
_obj_int), then that many value bytes.  A negative length yields None; the
value bytes are turned into a str by "".join(map(chr, list(value))). -/
def _obj_len_data (length_size : Nat) (s : St) : Option (List Char) × St :=
  if s.length < length_size then (none, [])
  else
    let r : Int × St :=
      if length_size = 1 then ((s.headD 0 : Nat), s.drop 1)
      else _obj_int s
    let len := r.1
    let s1 := r.2
    if len < 0 then (none, s1)
    else if len > 0 then (some (bytesChr (s1.take len.toNat)), s1.drop len.toNat)
    else (some [], s1)

/-- Protocol._obj_str: 4-byte length then content (str(value) is the
identity on the str produced by _obj_len_data). -/
def _obj_str (s : St) : Option (List Char) × St :=
  _obj_len_data 4 s

/-- Protocol._obj_buffer: 4-byte length then raw data. -/
def _obj_buffer (s : St) : Option (List Char) × St :=
  _obj_len_data 4 s

/-- Protocol._obj_long: 1-byte length then a decimal string, converted by
int(value); None propagates. -/
def _obj_long (s : St) : Except PyErr (Option Int × St) :=
  match _obj_len_data 1 s with
  | (none, t) => .ok (none, t)
  | (some cs, t) =>
    match pyIntParse cs with
    | .ok n => .ok (some n, t)
    | .error e => .error e

/-- Protocol._obj_ptr: 1-byte length then hex text, formatted as
0x followed by the text; None propagates. -/
def _obj_ptr (s : St) : Option (List Char) × St :=
  match _obj_len_data 1 s with
  | (none, t) => (none, t)
  | (some cs, t) => (some ('0' :: 'x' :: cs), t)

/-- Protocol._obj_time: 1-byte length then a decimal string, converted by
int(str(value)); None propagates. -/
def _obj_time (s : St) : Except PyErr (Option Int × St) :=
  match _obj_len_data 1 s with
  | (none, t) => .ok (none, t)
  | (some cs, t) =>
    match pyIntParse cs with
    | .ok n => .ok (some n, t)
    | .error e => .error e

/-- Protocol._obj_info: two strings, returned as a (name, value) tuple. -/
def _obj_info (s : St) : PyValue × St :=
  let r1 := _obj_str s
  let r2 := _obj_str r1.2
  (.tup (optStrVal r1.1) (optStrVal r2.1), r2.2)

/-! ### Composite decoders

The composite decoders look decoders up in the self._obj_cb table; the
table is modelled by the dispatch function below.  To keep each loop a
plain structural recursion, the composites take the dispatch function as
a parameter d, and dispatch ties the knot with a recursion-depth fuel
argument (every nested dispatch sits behind at least 7 consumed bytes, so
the depth is bounded by the buffer length). -/

/-- The type of the tag-indexed decoder lookup self._obj_cb[tag]. -/
abbrev DispatchFn := List Char → St → Except PyErr (PyValue × St)

/-- The item loop of Protocol._obj_hashtable: count iterations of
key = self._obj_cb[type_keys](); value = self._obj_cb[type_values]();
hashtable[key] = value.  An unhashable key raises TypeError. -/
def htbLoopG (d : DispatchFn) (tk tv : List Char) :
    Nat → List (PyValue × PyValue) → St → Except PyErr (List (PyValue × PyValue) × St)
  | 0, acc, s => .ok (acc, s)
  | n + 1, acc, s =>
    match d tk s with
    | .error e => .error e
    | .ok (k, s1) =>
      match d tv s1 with
      | .error e => .error e
      | .ok (v, s2) =>
        if hashableKey k then htbLoopG d tk tv n (dictSet acc k v) s2
        else .error .typeError

/-- Protocol._obj_hashtable: type tag for keys, type tag for values, count,
then count key/value pairs inserted into a WeechatDict in read order. -/
def _obj_hashtableG (d : DispatchFn) (s : St) : Except PyErr (PyValue × St) :=
  match _obj_type s with
  | .error e => .error e
  | .ok (tk, s1) =>
    match _obj_type s1 with
    | .error e => .error e
    | .ok (tv, s2) =>
      let r := _obj_int s2
      match htbLoopG d tk tv r.1.toNat [] r.2 with
      | .error e => .error e
      | .ok (h, s4) => .ok (.dict h, s4)

/-- The value loop of Protocol._obj_array. -/
def arrLoopG (d : DispatchFn) (t : List Char) :
    Nat → St → Except PyErr (List PyValue × St)
  | 0, s => .ok ([], s)
  | n + 1, s =>
    match d t s with
    | .error e => .error e
    | .ok (v, s1) =>
      match arrLoopG d t n s1 with
      | .error e => .error e
      | .ok (vs, s2) => .ok (v :: vs, s2)

/-- Protocol._obj_array: element type tag, count, then count values. -/
def _obj_arrayG (d : DispatchFn) (s : St) : Except PyErr (PyValue × St) :=
  match _obj_type s with
  | .error e => .error e
  | .ok (t, s1) =>
    let r := _obj_int s1
    match arrLoopG d t r.1.toNat r.2 with
    | .error e => .error e
    | .ok (vs, s3) => .ok (.list vs, s3)

/-- The keys-string parsing loop of Protocol._obj_hdata (lines building
keys_types and dict_keys): each comma group is split on the colon;
items[1] on a group without a colon raises IndexError. -/
def hdataKeysLoop (kts : List (List (List Char))) (dk : List (PyValue × PyValue)) :
    List (List Char) → Except PyErr (List (List (List Char)) × List (PyValue × PyValue))
  | [] => .ok (kts, dk)
  | k :: rest =>
    match pySplit ':' k with
    | p0 :: p1 :: ps =>
        hdataKeysLoop (kts ++ [p0 :: p1 :: ps]) (dictSet dk (.str p0) (.str p1)) rest
    | _ => .error .indexError

/-- The expression path.split('/') if path else [] of _obj_hdata: None and
the empty string are both falsy and yield the empty path list. -/
def splitPathOpt (o : Option (List Char)) : List (List Char) :=
  match o with
  | some (c :: cs) => pySplit '/' (c :: cs)
  | _ => []

/-- The expression keys.split(',') if keys else [] of _obj_hdata. -/
def splitKeysOpt (o : Option (List Char)) : List (List Char) :=
  match o with
  | some (c :: cs) => pySplit ',' (c :: cs)
  | _ => []

/-- The pointer loop of Protocol._obj_hdata: one _obj_ptr per path segment. -/
def ptrLoop : Nat → St → List PyValue × St
  | 0, s => ([], s)
  | n + 1, s =>
    let r := _obj_ptr s
    let rs := ptrLoop n r.2
    (optStrVal r.1 :: rs.1, rs.2)

/-- The field loop of Protocol._obj_hdata: for key, objtype in keys_types:
item[key] = self._obj_cb[objtype]().  Unpacking a group that does not have
exactly two parts raises ValueError. -/
def hFieldLoopG (d : DispatchFn) :
    List (List (List Char)) → List (PyValue × PyValue) → St →
    Except PyErr (List (PyValue × PyValue) × St)
  | [], item, s => .ok (item, s)
  | parts :: rest, item, s =>
    match parts with
    | [k, t] =>
      match d t s with
      | .error e => .error e
      | .ok (v, s1) => hFieldLoopG d rest (dictSet item (.str k) v) s1
    | other => .error (.valueError (other.foldl (fun a p => a ++ p) []))

/-- The reserved path key string of _obj_hdata items. -/
def pathKey : List Char := "__path".toList

/-- The item loop of Protocol._obj_hdata: item starts as the WeechatDict
with only the reserved key, the path pointers are read, the declared fields
are decoded in declared order, and the reserved key is then set to the
pointer list (keeping its first position). -/
def hItemLoopG (d : DispatchFn) (plen : Nat) (kts : List (List (List Char))) :
    Nat → St → Except PyErr (List PyValue × St)
  | 0, s => .ok ([], s)
  | n + 1, s =>
    let item0 : List (PyValue × PyValue) := [(.str pathKey, .list [])]
    let pr := ptrLoop plen s
    match hFieldLoopG d kts item0 pr.2 with
    | .error e => .error e
    | .ok (item1, s2) =>
      let item2 := dictSet item1 (.str pathKey) (.list pr.1)
      match hItemLoopG d plen kts n s2 with
      | .error e => .error e
      | .ok (items, s3) => .ok (.dict item2 :: items, s3)

/-- Protocol._obj_hdata: path string, keys string, count, then the items;
returns the dict with the path list, the declared key mapping, the count
and the item list.  A path that is None or empty yields an empty path
list, and likewise for the keys string (the if path / if keys tests). -/
def _obj_hdataG (d : DispatchFn) (s : St) : Except PyErr (PyValue × St) :=
  let rp := _obj_str s
  let rk := _obj_str rp.2
  let rc := _obj_int rk.2
  let list_path : List (List Char) := splitPathOpt rp.1
  let list_keys : List (List Char) := splitKeysOpt rk.1
  match hdataKeysLoop [] [] list_keys with
  | .error e => .error e
  | .ok (keys_types, dict_keys) =>
    match hItemLoopG d list_path.length keys_types rc.1.toNat rc.2 with
    | .error e => .error e
    | .ok (items, s4) =>
      .ok (.dict [(.str "path".toList, .list (list_path.map PyValue.str)),
                  (.str "keys".toList, .dict dict_keys),
                  (.str "count".toList, .int rc.1),
                  (.str "items".toList, .list items)], s4)

/-- The variable loop of Protocol._obj_infolist: per variable a name
string, a type tag and a dispatched value. -/
def inlVarLoopG (d : DispatchFn) :
    Nat → List (PyValue × PyValue) → St → Except PyErr (List (PyValue × PyValue) × St)
  | 0, vars, s => .ok (vars, s)
  | n + 1, vars, s =>
    let rn := _obj_str s
    match _obj_type rn.2 with
    | .error e => .error e
    | .ok (t, s2) =>
      match d t s2 with
      | .error e => .error e
      | .ok (v, s3) => inlVarLoopG d n (dictSet vars (optStrVal rn.1) v) s3

/-- The item loop of Protocol._obj_infolist: per item a variable count and
that many variables collected into a WeechatDict. -/
def inlItemLoopG (d : DispatchFn) : Nat → St → Except PyErr (List PyValue × St)
  | 0, s => .ok ([], s)
  | n + 1, s =>
    let rc := _obj_int s
    match inlVarLoopG d rc.1.toNat [] rc.2 with
    | .error e => .error e
    | .ok (vars, s2) =>
      match inlItemLoopG d n s2 with
      | .error e => .error e
      | .ok (items, s3) => .ok (.dict vars :: items, s3)

/-- Protocol._obj_infolist: name string, item count, then the items. -/
def _obj_infolistG (d : DispatchFn) (s : St) : Except PyErr (PyValue × St) :=
  let rn := _obj_str s
  let rc := _obj_int rn.2
  match inlItemLoopG d rc.1.toNat rc.2 with
  | .error e => .error e
  | .ok (items, s3) =>
    .ok (.dict [(.str "name".toList, optStrVal rn.1),
                (.str "items".toList, .list items)], s3)

/-- The self._obj_cb dispatch table, with a fuel bound on the nesting depth
of composite values.  A tag absent from the table raises KeyError. -/
def dispatchF : Nat → List Char → St → Except PyErr (PyValue × St)
  | 0, _, _ => .error .outOfFuel
  | f + 1, tag, s =>
    if tag = "chr".toList then
      let r := _obj_char s; .ok (.int r.1, r.2)
    else if tag = "int".toList then
      let r := _obj_int s; .ok (.int r.1, r.2)
    else if tag = "lon".toList then
      match _obj_long s with
      | .error e => .error e
      | .ok (v, t) => .ok (optIntVal v, t)
    else if tag = "str".toList then
      let r := _obj_str s; .ok (optStrVal r.1, r.2)
    else if tag = "buf".toList then
      let r := _obj_buffer s; .ok (optStrVal r.1, r.2)
    else if tag = "ptr".toList then
      let r := _obj_ptr s; .ok (optStrVal r.1, r.2)
    else if tag = "tim".toList then
      match _obj_time s with
      | .error e => .error e
      | .ok (v, t) => .ok (optIntVal v, t)
    else if tag = "htb".toList then
      _obj_hashtableG (fun t u => dispatchF f t u) s
    else if tag = "hda".toList then
      _obj_hdataG (fun t u => dispatchF f t u) s
    else if tag = "inf".toList then
      let r := _obj_info s; .ok (r.1, r.2)
    else if tag = "inl".toList then
      _obj_infolistG (fun t u => dispatchF f t u) s
    else if tag = "arr".toList then
      _obj_arrayG (fun t u => dispatchF f t u) s
    else .error (.keyError tag)

/-- The program-level dispatch self._obj_cb[tag](): every nested composite
value consumes at least 7 bytes before dispatching again, so a fuel of
one more than the buffer length can never run out. -/
def dispatch : DispatchFn := fun tag s => dispatchF (s.length + 1) tag s

/-! ### Message assembly (Protocol.decode) -/

/-- One (objtype, value) pair appended to the objects list of the decode
loop (the presentation-only separator and indent fields of WeechatObject
are omitted: they only affect the __str__ methods). -/
abbrev WObj := List Char × PyValue

/-- The while len(self.data) > 0 loop of Protocol.decode: read a type tag,
dispatch on it (a tag that is not a key of self._obj_cb, including the
empty tag returned when fewer than 3 bytes remain, raises KeyError), and
append the (objtype, value) pair.  Each successful iteration consumes at
least 3 bytes, so a fuel of one more than the buffer length suffices. -/
def decodeLoopF (d : DispatchFn) : Nat → St → Except PyErr (List WObj)
  | 0, _ => .error .outOfFuel
  | f + 1, s =>
    if s.length = 0 then .ok []
    else
      match _obj_type s with
      | .error e => .error e
      | .ok (tag, s1) =>
        match d tag s1 with
        | .error e => .error e
        | .ok (v, s2) =>
          match decodeLoopF d f s2 with
          | .error e => .error e
          | .ok objs => .ok ((tag, v) :: objs)

/-- The self.data buffer of Protocol.decode: bytes normally, but a str
after the compressed branch has run (see pyBytesRepr below). -/
inductive PyBuf where
  | bytes (bs : List Nat)
  | str (cs : List Char)

/-- The WeechatMessage returned by Protocol.decode. -/
structure WeechatMessage where
  size : Nat
  size_uncompressed : Nat
  compression : Int
  uncompressed : PyBuf
  msgid : List Char
  objects : List WObj

/-- One byte of the Python repr of a bytes object, with quote q. -/
def pyByteEsc (q : Char) (b : Nat) : List Char :=
  if b = 92 then [Char.ofNat 92, Char.ofNat 92]
  else if b = q.toNat then [Char.ofNat 92, q]
  else if b = 9 then [Char.ofNat 92, 't']
  else if b = 10 then [Char.ofNat 92, 'n']
  else if b = 13 then [Char.ofNat 92, 'r']
  else if 32 ≤ b && b < 127 then [Char.ofNat b]
  else [Char.ofNat 92, 'x',
        (if b / 16 % 16 < 10 then Char.ofNat (48 + b / 16 % 16) else Char.ofNat (87 + b / 16 % 16)),
        (if b % 16 < 10 then Char.ofNat (48 + b % 16) else Char.ofNat (87 + b % 16))]

/-- The Python 3 str produced by applying the percent-s format to a bytes
object: str(b), i.e. the repr with the b marker and quotes.  A single
quote in the data (with no double quote) switches the delimiter to a
double quote. -/
def pyBytesRepr (bs : List Nat) : List Char :=
  let q : Char := if 39 ∈ bs && !(34 ∈ bs) then '"' else Char.ofNat 39
  'b' :: q :: (bs.map (pyByteEsc q)).foldr (fun a b => a ++ b) [q]

/-- The tail of Protocol.decode in the compressed case, where the percent
format of the three packed byte strings has made self.data a str: the
length test of _obj_len_data still passes (len works on str), but
_obj_int then calls struct.unpack on a str slice, raising TypeError.
When fewer than 4 characters remain, _obj_len_data instead empties
self.data and returns None, so the loop exits with no objects. -/
def decodeTailStr (size su : Nat) (compression : Int) (s : List Char) :
    Except PyErr WeechatMessage :=
  let tail := s.drop 5
  if tail.length < 4 then .ok ⟨size, su, compression, .str s, [], []⟩
  else .error .typeError

/-- Protocol.decode: read the compression flag at offset 4; if non-zero,
inflate self.data[5:] (the zlib call is the decompress parameter) and
rebuild the header with the percent-s format - which in Python 3 turns
the three bytes objects into their reprs, yielding a str.  Otherwise skip
the 5 header bytes, read the message id string (None becomes the empty
id), and run the object loop until the buffer is exhausted. -/
def decode (decompress : St → Except PyErr St) (data : St) :
    Except PyErr WeechatMessage :=
  let size := data.length
  if data.length < 5 then .error .structError
  else
    let compression := int8 ((data.drop 4).headD 0)
    if compression ≠ 0 then
      match decompress (data.drop 5) with
      | .error e => .error e
      | .ok payload =>
        let size_uncompressed := payload.length + 5
        match packInt32Checked (size_uncompressed : Int) with
        | .error e => .error e
        | .ok packed =>
          let s := pyBytesRepr packed ++ pyBytesRepr [0] ++ pyBytesRepr payload
          decodeTailStr size size_uncompressed compression s
    else
      let s0 := data.drop 5
      let rid := _obj_str s0
      let msgid := rid.1.getD []
      match decodeLoopF dispatch (rid.2.length + 1) rid.2 with
      | .error e => .error e
      | .ok objs => .ok ⟨size, size, compression, .bytes data, msgid, objs⟩

end Protocol

namespace Py3status

/-- Py3status._receive after its read loop: the function has accumulated
the available stream bytes into buffer, unpacks a signed 32-bit big-endian
length from buffer[0:4] (struct.error when fewer than 4 bytes arrived) and
returns the slice buffer[0:length] - which is silently shorter than length
when fewer bytes are buffered, and clips from the end for a negative
length, following Python slice semantics. -/
def _receive (buffer : List Nat) : Except PyErr (List Nat) :=
  if buffer.length < 4 then .error .structError
  else
    let length := int32 (buffer.take 4)
    if length < 0 then .ok (buffer.take (buffer.length - length.natAbs))
    else .ok (buffer.take length.toNat)

end Py3status

/-! ### Verification helpers -/

/-- The key list that results from dict assignments with the given key
sequence: an already present key (by Python equality) changes nothing, a
fresh key is appended. -/
def addKeys (ks : List PyValue) : List PyValue → List PyValue
  | [] => ks
  | k :: rest => addKeys (if ks.any (fun e => keyEq e k) then ks else ks ++ [k]) rest

/-- The dict key contributed by one colon-split keys_types group. -/
def partsKey (parts : List (List Char)) : PyValue := .str (parts.headD [])

/-! ### Basic lemmas -/

theorem int32_packInt32 (L : Nat) (h : L < 2 ^ 31) : int32 (packInt32 (L : Int)) = L := by
  have hmod : ((L : Int) % 2 ^ 32).toNat = L := by omega
  simp only [packInt32, hmod, int32, beNat, List.foldl]
  have : L / 2 ^ 24 % 256 * 256 * 256 * 256 + L / 2 ^ 16 % 256 * 256 * 256 +
      L / 2 ^ 8 % 256 * 256 + L % 256 = L := by omega
  omega

theorem packInt32_length (n : Int) : (packInt32 n).length = 4 := rfl

theorem take_append_left {α : Type} (l1 l2 : List α) : (l1 ++ l2).take l1.length = l1 := by
  simp

theorem drop_append_left {α : Type} (l1 l2 : List α) : (l1 ++ l2).drop l1.length = l2 := by
  simp

/-! ### Claim C2: frame extraction in Py3status._receive -/

/-- C2 (corrected claim, counterexample): a buffer that holds only 5 bytes
while its first four bytes declare a length of 10 is returned whole and
silently truncated; no FramingError (or any error) is raised.  The code
contains no FramingError at all. -/
theorem C2_counterexample_silent_truncation :
    Py3status._receive [0, 0, 0, 10, 0] = .ok [0, 0, 0, 10, 0] ∧
    int32 (([0, 0, 0, 10, 0] : List Nat).take 4) = 10 ∧
    ([0, 0, 0, 10, 0] : List Nat).length = 5 := by
  exact ⟨rfl, rfl, rfl⟩

/-- C2 (amended): for a buffered read of at least 4 bytes whose declared
big-endian length n is non-negative, _receive returns buffer[0:n] - exactly
the first n bytes (excluding any bytes of a subsequent message) when at
least n bytes are buffered, and the entire shorter buffer (silent
truncation, no error) otherwise. -/
theorem C2_receive_slices_buffer (buffer : List Nat) (n : Int)
    (hlen : 4 ≤ buffer.length) (hn : int32 (buffer.take 4) = n) (hpos : 0 ≤ n) :
    Py3status._receive buffer = .ok (buffer.take n.toNat) ∧
    (n.toNat ≤ buffer.length → (buffer.take n.toNat).length = n.toNat) ∧
    (buffer.length < n.toNat → buffer.take n.toNat = buffer) := by
  refine ⟨?_, ?_, ?_⟩
  · simp only [Py3status._receive, hn, if_neg (show ¬buffer.length < 4 by omega),
      if_neg (show ¬n < 0 by omega)]
  · intro h
    simp only [List.length_take]
    omega
  · intro h
    exact List.take_of_length_le (by omega)

/-- C2 witness. -/
theorem C2_witness :
    Py3status._receive [0, 0, 0, 2, 7, 8] = .ok (([0, 0, 0, 2, 7, 8] : List Nat).take ((2 : Int).toNat)) ∧
    ((2 : Int).toNat ≤ ([0, 0, 0, 2, 7, 8] : List Nat).length →
      ((([0, 0, 0, 2, 7, 8] : List Nat)).take ((2 : Int).toNat)).length = (2 : Int).toNat) ∧
    (([0, 0, 0, 2, 7, 8] : List Nat).length < (2 : Int).toNat →
      ([0, 0, 0, 2, 7, 8] : List Nat).take ((2 : Int).toNat) = [0, 0, 0, 2, 7, 8]) :=
  C2_receive_slices_buffer [0, 0, 0, 2, 7, 8] 2 (by decide) (by decide) (by decide)

/-! ### Claim C4: underflow behaviour of the primitive decoders -/

/-- C4 (corrected claim, counterexample): dispatching the int decoder on a
3-byte buffer succeeds with the implicit value 0 (and an emptied buffer)
instead of failing. -/
theorem C4_counterexample_int_underflow_zero :
    Protocol.dispatch "int".toList [1, 2, 3] = .ok (.int 0, []) := rfl

/-- C4 (amended): on insufficient remaining bytes the primitive decoders do
not fail: _obj_int returns 0 and empties the buffer, _obj_char returns 0,
_obj_len_data returns None (emptying the buffer) when the length prefix
itself cannot be read, and silently truncates the value when fewer than the
declared number of payload bytes remain. -/
theorem C4_underflow_yields_defaults (s1 s2 s3 : St) (n L : Nat) (pay : St)
    (h1 : s1.length < 4) (h2 : s2.length = 0) (h3 : s3.length < n)
    (h4 : pay.length < L) (h5 : L < 2 ^ 31) :
    Protocol._obj_int s1 = (0, []) ∧
    Protocol._obj_char s2 = (0, s2) ∧
    Protocol._obj_len_data n s3 = (none, []) ∧
    Protocol._obj_len_data 4 (packInt32 (L : Int) ++ pay) = (some (bytesChr pay), []) := by
  refine ⟨?_, ?_, ?_, ?_⟩
  · simp [Protocol._obj_int, h1]
  · simp [Protocol._obj_char, show s2.length < 1 by omega]
  · simp [Protocol._obj_len_data, h3]
  · have hb : (packInt32 (L : Int) ++ pay).length = 4 + pay.length := by
      simp [packInt32_length]
    have htake : (packInt32 (L : Int) ++ pay).take 4 = packInt32 (L : Int) := by
      rw [show (4 : Nat) = (packInt32 (L : Int)).length from rfl]
      exact take_append_left _ _
    have hdrop : (packInt32 (L : Int) ++ pay).drop 4 = pay := by
      rw [show (4 : Nat) = (packInt32 (L : Int)).length from rfl]
      exact drop_append_left _ _
    simp only [Protocol._obj_len_data, Protocol._obj_int, hb, htake, hdrop,
      if_neg (show ¬4 + pay.length < 4 by omega), if_neg (show (4 : Nat) ≠ 1 by omega),
      if_neg (show ¬4 + pay.length < 4 by omega), int32_packInt32 L h5]
    rw [if_neg (show ¬(L : Int) < 0 by omega), if_pos (show (L : Int) > 0 by omega)]
    simp [List.take_of_length_le (le_of_lt h4), List.drop_eq_nil_of_le (le_of_lt h4),
      Int.toNat_ofNat]

/-- C4 witness. -/
theorem C4_witness :
    Protocol._obj_int [1, 2, 3] = (0, []) ∧
    Protocol._obj_char [] = (0, []) ∧
    Protocol._obj_len_data 1 [] = (none, []) ∧
    Protocol._obj_len_data 4 (packInt32 ((3 : Nat) : Int) ++ [65, 66]) = (some (bytesChr [65, 66]), []) :=
  C4_underflow_yields_defaults [1, 2, 3] [] [] 1 3 [65, 66]
    (by decide) (by decide) (by decide) (by decide) (by decide)

/-! ### Claim C5: null versus empty for length-prefixed fields -/

/-- C5 (corrected claim, counterexample): a time field with declared length
0 does not decode to a present-but-empty value - int applied to the empty
string raises ValueError. -/
theorem C5_counterexample_time_length_zero :
    Protocol._obj_time [0] = .error (.valueError []) := rfl

/-- Evaluation of _obj_len_data with a 4-byte length followed by the rest
of the buffer. -/
theorem obj_len_data_four (bs rest : St) (h : bs.length = 4) :
    Protocol._obj_len_data 4 (bs ++ rest) =
      (if int32 bs < 0 then (none, rest)
       else if int32 bs > 0 then
         (some (bytesChr (rest.take (int32 bs).toNat)), rest.drop (int32 bs).toNat)
       else (some [], rest)) := by
  have hlen : (bs ++ rest).length = 4 + rest.length := by simp [h]
  have htake : (bs ++ rest).take 4 = bs := by rw [← h]; exact take_append_left _ _
  have hdrop : (bs ++ rest).drop 4 = rest := by rw [← h]; exact drop_append_left _ _
  simp only [Protocol._obj_len_data, Protocol._obj_int, hlen, htake, hdrop,
    if_neg (show ¬4 + rest.length < 4 by omega), if_neg (show ¬(4 = 1) by decide)]

/-- Evaluation of _obj_len_data with a 1-byte (unsigned) length. -/
theorem obj_len_data_one (b : Nat) (rest : St) :
    Protocol._obj_len_data 1 (b :: rest) =
      (if 0 < b then (some (bytesChr (rest.take b)), rest.drop b) else (some [], rest)) := by
  simp only [Protocol._obj_len_data, List.length_cons, List.headD_cons]
  rw [if_neg (show ¬rest.length + 1 < 1 by omega)]
  by_cases hb : 0 < b
  · simp [hb, show ¬((b : Nat) : Int) < 0 by omega, show ((b : Nat) : Int) > 0 by omega]
  · have hb0 : b = 0 := by omega
    subst hb0
    simp

/-- C5 (amended): for string and buffer fields a declared length of -1
decodes to None and 0 to the empty string, and the two are distinct; a
pointer with length 0 decodes to the present-but-empty text 0x; but a time
field with length 0 raises ValueError instead of producing an empty value
(and -1 is unrepresentable in the 1-byte unsigned prefix of pointer and
time fields). -/
theorem C5_null_vs_empty (rest : St) :
    Protocol._obj_str ([255, 255, 255, 255] ++ rest) = (none, rest) ∧
    Protocol._obj_str ([0, 0, 0, 0] ++ rest) = (some [], rest) ∧
    Protocol._obj_buffer ([255, 255, 255, 255] ++ rest) = (none, rest) ∧
    Protocol._obj_buffer ([0, 0, 0, 0] ++ rest) = (some [], rest) ∧
    Protocol._obj_ptr (0 :: rest) = (some ['0', 'x'], rest) ∧
    Protocol._obj_time (0 :: rest) = .error (.valueError []) ∧
    (none : Option (List Char)) ≠ some [] := by
  have hminus : Protocol._obj_len_data 4 ([255, 255, 255, 255] ++ rest) = (none, rest) := by
    rw [obj_len_data_four [255, 255, 255, 255] rest rfl]
    rw [show int32 [255, 255, 255, 255] = -1 from by decide]
    simp
  have hzero : Protocol._obj_len_data 4 ([0, 0, 0, 0] ++ rest) = (some [], rest) := by
    rw [obj_len_data_four [0, 0, 0, 0] rest rfl]
    rw [show int32 [0, 0, 0, 0] = 0 from by decide]
    simp
  have hone : Protocol._obj_len_data 1 (0 :: rest) = (some [], rest) := by
    rw [obj_len_data_one 0 rest]
    simp
  refine ⟨hminus, hzero, hminus, hzero, ?_, ?_, by simp⟩
  · simp only [Protocol._obj_ptr, hone]
  · simp only [Protocol._obj_time, hone]
    rfl

/-! ### Claim C6: the end-to-end example frame -/

/-- C6 (corrected claim, counterexample): decoding the 13 frame bytes given
in the specification raises KeyError on the type tag of three NUL
characters - the frame lacks the 3-byte int tag, so no Message with an
int object can result. -/
theorem C6_counterexample_spec_bytes :
    Protocol.decode (fun _ => .ok []) [0, 0, 0, 14, 0, 255, 255, 255, 255, 0, 0, 0, 42]
      = .error (.keyError [Char.ofNat 0, Char.ofNat 0, Char.ofNat 0]) := rfl

/-- C6 (amended): with the int type tag included (frame 00 00 00 10 00
FF FF FF FF 69 6E 74 00 00 00 2A), decode returns a Message whose null id
is normalized to the empty string and whose object sequence is exactly one
(int, 42) pair. -/
theorem C6_frame_decodes_to_int42 :
    Protocol.decode (fun _ => .ok [])
        [0, 0, 0, 16, 0, 255, 255, 255, 255, 105, 110, 116, 0, 0, 0, 42]
      = .ok ⟨16, 16, 0, .bytes [0, 0, 0, 16, 0, 255, 255, 255, 255, 105, 110, 116, 0, 0, 0, 42],
             [], [("int".toList, .int 42)]⟩ := rfl

/-! ### Claim C10: long, pointer and time fields -/

/-- C10 (corrected claim, counterexample): a long field with declared
length 0 raises ValueError (int of the empty string) instead of yielding a
present-but-empty result. -/
theorem C10_counterexample_long_length_zero :
    Protocol._obj_long [0] = .error (.valueError []) := rfl

/-- C10 (amended): the 1-byte length of long, pointer and time fields is
unsigned, so the -1 null sentinel is unrepresentable: on a non-empty
buffer _obj_len_data with a 1-byte length never returns None, the pointer
decoder always returns a string (0x for length 0), and the long and time
decoders never return None on success - but for a declared length of 0
they raise ValueError (int of the empty string) rather than producing an
empty value. -/
theorem C10_one_byte_length_unsigned (b : Nat) (rest : St) (s : St) (hs : s ≠ []) :
    (Protocol._obj_len_data 1 (b :: rest)).1.isSome = true ∧
    (Protocol._obj_ptr s).1.isSome = true ∧
    (∀ v t, Protocol._obj_long s = .ok (v, t) → v.isSome = true) ∧
    (∀ v t, Protocol._obj_time s = .ok (v, t) → v.isSome = true) ∧
    Protocol._obj_ptr (0 :: rest) = (some ['0', 'x'], rest) ∧
    Protocol._obj_long (0 :: rest) = .error (.valueError []) ∧
    Protocol._obj_time (0 :: rest) = .error (.valueError []) := by
  obtain ⟨c, s', rfl⟩ := List.exists_cons_of_ne_nil hs
  have hsome : ∀ (b : Nat) (rest : St), (Protocol._obj_len_data 1 (b :: rest)).1.isSome = true := by
    intro b rest
    rw [obj_len_data_one b rest]
    by_cases hb : 0 < b <;> simp [hb]
  have hzero : Protocol._obj_len_data 1 (0 :: rest) = (some [], rest) := by
    rw [obj_len_data_one 0 rest]; simp
  refine ⟨hsome b rest, ?_, ?_, ?_, ?_, ?_, ?_⟩
  · have := hsome c s'
    unfold Protocol._obj_ptr
    cases h : Protocol._obj_len_data 1 (c :: s') with
    | mk v t =>
      cases v with
      | none => rw [h] at this; simp at this
      | some cs => simp
  · intro v t hrun
    have hs' := hsome c s'
    unfold Protocol._obj_long at hrun
    cases h : Protocol._obj_len_data 1 (c :: s') with
    | mk v0 t0 =>
      cases v0 with
      | none => rw [h] at hs'; simp at hs'
      | some cs =>
        rw [h] at hrun
        have hrun2 : (match pyIntParse cs with
            | Except.ok n => (Except.ok (some n, t0) : Except PyErr (Option Int × St))
            | Except.error e => Except.error e) = Except.ok (v, t) := hrun
        cases hp : pyIntParse cs with
        | ok n => rw [hp] at hrun2; simp at hrun2; simp [← hrun2.1]
        | error e => rw [hp] at hrun2; simp at hrun2
  · intro v t hrun
    have hs' := hsome c s'
    unfold Protocol._obj_time at hrun
    cases h : Protocol._obj_len_data 1 (c :: s') with
    | mk v0 t0 =>
      cases v0 with
      | none => rw [h] at hs'; simp at hs'
      | some cs =>
        rw [h] at hrun
        have hrun2 : (match pyIntParse cs with
            | Except.ok n => (Except.ok (some n, t0) : Except PyErr (Option Int × St))
            | Except.error e => Except.error e) = Except.ok (v, t) := hrun
        cases hp : pyIntParse cs with
        | ok n => rw [hp] at hrun2; simp at hrun2; simp [← hrun2.1]
        | error e => rw [hp] at hrun2; simp at hrun2
  · simp only [Protocol._obj_ptr, hzero]
  · simp only [Protocol._obj_long, hzero]; rfl
  · simp only [Protocol._obj_time, hzero]; rfl

/-- C10 witness. -/
theorem C10_witness :
    (Protocol._obj_len_data 1 (5 :: ([] : St))).1.isSome = true ∧
    (Protocol._obj_ptr [0]).1.isSome = true ∧
    (∀ v t, Protocol._obj_long [0] = .ok (v, t) → v.isSome = true) ∧
    (∀ v t, Protocol._obj_time [0] = .ok (v, t) → v.isSome = true) ∧
    Protocol._obj_ptr (0 :: ([] : St)) = (some ['0', 'x'], []) ∧
    Protocol._obj_long (0 :: ([] : St)) = .error (.valueError []) ∧
    Protocol._obj_time (0 :: ([] : St)) = .error (.valueError []) :=
  C10_one_byte_length_unsigned 5 [] [0] (by simp)

/-! ### Claim C3: trailing bytes at a tag read -/

/-- C3 (corrected claim, counterexample): a frame with one trailing byte
after its objects does not decode to the Message assembled so far - the
decode loop dispatches on the empty tag returned by _obj_type and raises
KeyError. -/
theorem C3_counterexample_trailing_byte :
    Protocol.decode (fun _ => .ok []) [0, 0, 0, 10, 0, 255, 255, 255, 255, 7]
      = .error (.keyError []) := rfl

/-- C3 (amended): when 1 or 2 bytes remain at a tag read, _obj_type returns
the empty tag and empties the buffer, but the loop then dispatches on the
empty tag and raises KeyError; the loop returns the objects decoded so far
only when the buffer is exactly empty. -/
theorem C3_loop_keyerror_on_trailing_bytes (f : Nat) (s : St)
    (h1 : 0 < s.length) (h2 : s.length < 3) :
    Protocol.decodeLoopF Protocol.dispatch (f + 1) s = .error (.keyError []) ∧
    Protocol.decodeLoopF Protocol.dispatch (f + 1) [] = .ok [] := by
  constructor
  · have htype : Protocol._obj_type s = .ok ([], []) := by
      unfold Protocol._obj_type
      rw [if_pos h2]
    unfold Protocol.decodeLoopF
    rw [if_neg (by omega), htype]
    rfl
  · rfl

/-- C3 witness. -/
theorem C3_witness :
    Protocol.decodeLoopF Protocol.dispatch (0 + 1) [7] = .error (.keyError []) ∧
    Protocol.decodeLoopF Protocol.dispatch (0 + 1) [] = .ok [] :=
  C3_loop_keyerror_on_trailing_bytes 0 [7] (by decide) (by decide)

/-! ### Claim C1: the compressed envelope path -/

theorem one_le_pyByteEsc_length (q : Char) (b : Nat) : 1 ≤ (Protocol.pyByteEsc q b).length := by
  unfold Protocol.pyByteEsc
  repeat' split
  all_goals simp

theorem foldr_append_length (q : Char) (bs : List Nat) :
    bs.length + 1 ≤ ((bs.map (Protocol.pyByteEsc q)).foldr (fun a b => a ++ b) [q]).length := by
  induction bs with
  | nil => simp
  | cons b rest ih =>
    have := one_le_pyByteEsc_length q b
    simp only [List.map_cons, List.foldr_cons, List.length_append, List.length_cons]
    omega

theorem pyBytesRepr_length (bs : List Nat) : bs.length + 3 ≤ (Protocol.pyBytesRepr bs).length := by
  unfold Protocol.pyBytesRepr
  have := foldr_append_length (if 39 ∈ bs && !(34 ∈ bs) then '"' else Char.ofNat 39) bs
  simp only [List.length_cons]
  omega

/-- C1 (code bug): for every frame whose compression flag is non-zero and
whose tail inflates successfully, Protocol.decode raises instead of
reconstructing the canonical uncompressed buffer: when the inflated size
fits the signed 32-bit pack, the percent-s format applied to the three
packed bytes objects produces a str of their reprs in Python 3 (not a
bytes concatenation) and the message-id read then calls struct.unpack on
a str slice, raising TypeError; when the inflated size overflows, the
struct.pack range check raises struct.error first.  No Message is ever
produced, so the decoded result cannot equal the decode of the equivalent
uncompressed frame. -/
theorem C1_compressed_decode_raises (decompress : St → Except PyErr St)
    (data payload : St) (h5 : 5 ≤ data.length)
    (hflag : int8 ((data.drop 4).headD 0) ≠ 0)
    (hdec : decompress (data.drop 5) = .ok payload) :
    Protocol.decode decompress data =
      .error (if payload.length + 5 < 2 ^ 31 then PyErr.typeError else PyErr.structError) := by
  simp only [Protocol.decode, if_neg (show ¬data.length < 5 by omega), if_pos hflag, hdec]
  by_cases hbd : payload.length + 5 < 2 ^ 31
  · rw [if_pos hbd]
    have hpk : packInt32Checked ((payload.length + 5 : Nat) : Int)
        = .ok (packInt32 ((payload.length + 5 : Nat) : Int)) := by
      unfold packInt32Checked
      rw [if_neg (by omega)]
    simp only [hpk]
    unfold Protocol.decodeTailStr
    have l1 := pyBytesRepr_length (packInt32 ((payload.length + 5 : Nat) : Int))
    have l2 := pyBytesRepr_length [0]
    have l3 := pyBytesRepr_length payload
    rw [packInt32_length] at l1
    simp only [List.length_cons, List.length_nil] at l2
    rw [if_neg (by simp only [List.length_drop, List.length_append]; omega)]
  · rw [if_neg hbd]
    have hpk : packInt32Checked ((payload.length + 5 : Nat) : Int)
        = .error .structError := by
      unfold packInt32Checked
      rw [if_pos (by omega)]
    simp only [hpk]

/-- C1 witness: a concrete compressed frame (flag 1) whose payload inflates
to the four FF bytes of a null message id; decode raises TypeError, never
returning a Message. -/
theorem C1_witness :
    Protocol.decode (fun _ => .ok [255, 255, 255, 255]) [0, 0, 0, 6, 1, 120]
      = .error .typeError := by
  have h := C1_compressed_decode_raises (fun _ => .ok [255, 255, 255, 255])
    [0, 0, 0, 6, 1, 120] [255, 255, 255, 255] (by decide) (by decide) rfl
  simpa using h

/-! ### Claim C8: hashtable decoding -/

theorem htbLoop_pairs (d : Protocol.DispatchFn) (tk tv : List Char) :
    ∀ (n : Nat) (acc : List (PyValue × PyValue)) (s : St) (r : List (PyValue × PyValue)) (t : St),
      Protocol.htbLoopG d tk tv n acc s = .ok (r, t) →
      ∃ ps : List (PyValue × PyValue),
        ps.length = n ∧ r = ps.foldl (fun m kv => dictSet m kv.1 kv.2) acc := by
  intro n
  induction n with
  | zero =>
    intro acc s r t h
    unfold Protocol.htbLoopG at h
    simp at h
    exact ⟨[], rfl, by simp [h.1]⟩
  | succ m ih =>
    intro acc s r t h
    unfold Protocol.htbLoopG at h
    cases hk : d tk s with
    | error e => simp [hk] at h
    | ok pk =>
      obtain ⟨k, s1⟩ := pk
      simp only [hk] at h
      cases hv : d tv s1 with
      | error e => simp [hv] at h
      | ok pv =>
        obtain ⟨v, s2⟩ := pv
        simp only [hv] at h
        by_cases hh : hashableKey k = true
        · rw [if_pos hh] at h
          obtain ⟨ps, hlen, hr⟩ := ih (dictSet acc k v) s2 r t h
          exact ⟨(k, v) :: ps, by simp [hlen], by simpa using hr⟩
        · rw [if_neg hh] at h
          simp at h

theorem dictSet_append (m : List (PyValue × PyValue)) (k v : PyValue)
    (h : ∀ p ∈ m, keyEq p.1 k = false) : dictSet m k v = m ++ [(k, v)] := by
  induction m with
  | nil => rfl
  | cons p rest ih =>
    unfold dictSet
    rw [h p (by simp)]
    simp only [Bool.false_eq_true, if_false, List.cons_append]
    rw [ih (fun q hq => h q (by simp [hq]))]

theorem foldl_dictSet_nodup :
    ∀ (ps acc : List (PyValue × PyValue)),
      ps.Pairwise (fun a b => keyEq a.1 b.1 = false) →
      (∀ pa ∈ ps, ∀ pm ∈ acc, keyEq pm.1 pa.1 = false) →
      ps.foldl (fun m kv => dictSet m kv.1 kv.2) acc = acc ++ ps := by
  intro ps
  induction ps with
  | nil => intro acc _ _; simp
  | cons kv rest ih =>
    intro acc hpw hdis
    simp only [List.foldl_cons]
    rw [dictSet_append acc kv.1 kv.2 (fun p hp => hdis kv (by simp) p hp)]
    rw [ih (acc ++ [(kv.1, kv.2)]) (List.Pairwise.of_cons hpw) ?disj]
    · simp
    case disj =>
      intro pa hpa pm hpm
      rcases List.mem_append.mp hpm with hin | hone
      · exact hdis pa (by simp [hpa]) pm hin
      · have : pm = (kv.1, kv.2) := by simpa using hone
        subst this
        exact (List.pairwise_cons.mp hpw).1 pa hpa

/-- C8: for every hashtable value whose decode succeeds, the decoder has
performed exactly count key/value decode cycles in wire order; the result
is the insertion-ordered dict obtained by inserting those pairs in read
order, and when all keys are pairwise distinct the dict is exactly the
read pair sequence (size count, iteration order = wire order). -/
theorem C8_hashtable_cycles_and_order (d : Protocol.DispatchFn) (s s' : St) (v : PyValue)
    (h : Protocol._obj_hashtableG d s = .ok (v, s')) :
    ∃ (tk tv : List Char) (s1 s2 : St) (n : Int) (s3 : St) (ps : List (PyValue × PyValue)),
      Protocol._obj_type s = .ok (tk, s1) ∧
      Protocol._obj_type s1 = .ok (tv, s2) ∧
      Protocol._obj_int s2 = (n, s3) ∧
      ps.length = n.toNat ∧
      v = .dict (ps.foldl (fun m kv => dictSet m kv.1 kv.2) []) ∧
      (ps.Pairwise (fun a b => keyEq a.1 b.1 = false) → v = .dict ps) := by
  unfold Protocol._obj_hashtableG at h
  cases ht1 : Protocol._obj_type s with
  | error e => simp [ht1] at h
  | ok p1 =>
    obtain ⟨tk, s1⟩ := p1
    simp only [ht1] at h
    cases ht2 : Protocol._obj_type s1 with
    | error e => simp [ht2] at h
    | ok p2 =>
      obtain ⟨tv, s2⟩ := p2
      simp only [ht2] at h
      rcases hr : Protocol._obj_int s2 with ⟨n, s3⟩
      rw [hr] at h
      cases hloop : Protocol.htbLoopG d tk tv n.toNat [] s3 with
      | error e => simp [hloop] at h
      | ok pr =>
        obtain ⟨rdict, s4⟩ := pr
        simp only [hloop, Except.ok.injEq, Prod.mk.injEq] at h
        obtain ⟨ps, hlen, hfold⟩ := htbLoop_pairs d tk tv n.toNat [] s3 rdict s4 hloop
        refine ⟨tk, tv, s1, s2, n, s3, ps, rfl, ht2, hr, hlen, ?_, ?_⟩
        · rw [← h.1, hfold]
        · intro hpw
          rw [← h.1, hfold, foldl_dictSet_nodup ps [] hpw (by simp)]
          simp

/-- C8 witness: a hashtable with an int key and a str value and count 1. -/
theorem C8_witness :
    ∃ (tk tv : List Char) (s1 s2 : St) (n : Int) (s3 : St) (ps : List (PyValue × PyValue)),
      Protocol._obj_type ([105, 110, 116] ++ [115, 116, 114] ++ [0, 0, 0, 1] ++ [0, 0, 0, 7] ++ [0, 0, 0, 2, 104, 105]) = .ok (tk, s1) ∧
      Protocol._obj_type s1 = .ok (tv, s2) ∧
      Protocol._obj_int s2 = (n, s3) ∧
      ps.length = n.toNat ∧
      PyValue.dict [(.int 7, .str "hi".toList)] = .dict (ps.foldl (fun m kv => dictSet m kv.1 kv.2) []) ∧
      (ps.Pairwise (fun a b => keyEq a.1 b.1 = false) →
        PyValue.dict [(.int 7, .str "hi".toList)] = .dict ps) :=
  C8_hashtable_cycles_and_order Protocol.dispatch
    ([105, 110, 116] ++ [115, 116, 114] ++ [0, 0, 0, 1] ++ [0, 0, 0, 7] ++ [0, 0, 0, 2, 104, 105])
    [] (.dict [(.int 7, .str "hi".toList)]) rfl

/-! ### Claim C7: hdata item shape -/

theorem keyEq_true_iff : ∀ (a b : PyValue), keyEq a b = true ↔ (a = b ∧ hashableKey a = true)
  | .null, b => by cases b <;> simp [keyEq, hashableKey]
  | .int m, b => by cases b <;> simp [keyEq, hashableKey]
  | .str s, b => by cases b <;> simp [keyEq, hashableKey]
  | .list xs, b => by cases b <;> simp [keyEq, hashableKey]
  | .dict es, b => by cases b <;> simp [keyEq, hashableKey]
  | .tup a1 a2, b => by
    cases b <;> simp [keyEq, hashableKey]
    case tup b1 b2 =>
      rw [keyEq_true_iff a1 b1, keyEq_true_iff a2 b2]
      tauto

theorem keyEq_str_self (w : List Char) : keyEq (.str w) (.str w) = true := by
  simp [keyEq]

theorem dictSet_keys (m : List (PyValue × PyValue)) (k v : PyValue) :
    (dictSet m k v).map Prod.fst =
      (if (m.map Prod.fst).any (fun e => keyEq e k) then m.map Prod.fst
       else m.map Prod.fst ++ [k]) := by
  induction m with
  | nil => simp [dictSet]
  | cons p rest ih =>
    unfold dictSet
    by_cases hp : keyEq p.1 k = true
    · simp [hp]
    · have hp' : keyEq p.1 k = false := by
        cases hb : keyEq p.1 k
        · rfl
        · exact absurd hb hp
      simp only [hp', Bool.false_eq_true, if_false, List.map_cons, List.any_cons,
        Bool.false_or, ih]
      by_cases ha : (rest.map Prod.fst).any (fun e => keyEq e k) = true
      · simp [ha]
      · simp only [Bool.not_eq_true] at ha
        simp [ha]

theorem addKeys_nil (ks : List PyValue) : addKeys ks [] = ks := rfl

theorem addKeys_cons (ks : List PyValue) (k : PyValue) (names : List PyValue) :
    addKeys ks (k :: names) =
      addKeys (if ks.any (fun e => keyEq e k) then ks else ks ++ [k]) names := rfl

theorem addKeys_fresh_head :
    ∀ (names : List PyValue) (ks : List PyValue) (x : PyValue),
      (∀ k ∈ names, keyEq x k = false) →
      addKeys (x :: ks) names = x :: addKeys ks names := by
  intro names
  induction names with
  | nil => intro ks x _; rfl
  | cons k rest ih =>
    intro ks x hx
    rw [addKeys_cons, addKeys_cons]
    have hxk : keyEq x k = false := hx k (by simp)
    simp only [List.any_cons, hxk, Bool.false_or]
    by_cases ha : ks.any (fun e => keyEq e k) = true
    · rw [if_pos ha, if_pos ha]
      exact ih ks x (fun k' hk' => hx k' (by simp [hk']))
    · simp only [Bool.not_eq_true] at ha
      rw [if_neg (by simp [ha]), if_neg (by simp [ha])]
      rw [show x :: ks ++ [k] = x :: (ks ++ [k]) from rfl]
      exact ih (ks ++ [k]) x (fun k' hk' => hx k' (by simp [hk']))

theorem addKeys_prefix :
    ∀ (names : List PyValue) (ks : List PyValue), ∃ suf, addKeys ks names = ks ++ suf := by
  intro names
  induction names with
  | nil => intro ks; exact ⟨[], by simp [addKeys_nil]⟩
  | cons k rest ih =>
    intro ks
    rw [addKeys_cons]
    by_cases ha : ks.any (fun e => keyEq e k) = true
    · rw [if_pos ha]; exact ih ks
    · rw [if_neg ha]
      obtain ⟨suf, hsuf⟩ := ih (ks ++ [k])
      exact ⟨k :: suf, by simp [hsuf]⟩

theorem addKeys_fresh_of_result :
    ∀ (names : List PyValue) (ks : List PyValue) (x : PyValue),
      (∀ y ∈ addKeys ks names, keyEq x y = false) →
      ∀ k ∈ names, keyEq x k = false := by
  intro names
  induction names with
  | nil => intro ks x _ k hk; simp at hk
  | cons k0 rest ih =>
    intro ks x H k hk
    rw [addKeys_cons] at H
    rcases List.mem_cons.mp hk with rfl | hkr
    · by_cases ha : ks.any (fun e => keyEq e k) = true
      · rw [if_pos ha] at H
        obtain ⟨e, he, heq⟩ := List.any_eq_true.mp ha
        obtain ⟨rfl, _⟩ := (keyEq_true_iff e k).mp heq
        obtain ⟨suf, hsuf⟩ := addKeys_prefix rest ks
        exact H e (by rw [hsuf]; exact List.mem_append_left _ he)
      · rw [if_neg ha] at H
        obtain ⟨suf, hsuf⟩ := addKeys_prefix rest (ks ++ [k])
        exact H k (by rw [hsuf]; simp)
    · by_cases ha : ks.any (fun e => keyEq e k0) = true
      · rw [if_pos ha] at H
        exact ih ks x H k hkr
      · rw [if_neg ha] at H
        exact ih (ks ++ [k0]) x H k hkr

theorem hdataKeysLoop_spec :
    ∀ (lks : List (List Char)) (kts0 : List (List (List Char)))
      (dk0 : List (PyValue × PyValue)) (kts : List (List (List Char)))
      (dk : List (PyValue × PyValue)),
      Protocol.hdataKeysLoop kts0 dk0 lks = .ok (kts, dk) →
      ∃ new, kts = kts0 ++ new ∧
        dk.map Prod.fst = addKeys (dk0.map Prod.fst) (new.map partsKey) := by
  intro lks
  induction lks with
  | nil =>
    intro kts0 dk0 kts dk h
    unfold Protocol.hdataKeysLoop at h
    simp at h
    exact ⟨[], by simp [h.1], by simp [addKeys_nil, h.2]⟩
  | cons k rest ih =>
    intro kts0 dk0 kts dk h
    unfold Protocol.hdataKeysLoop at h
    rcases hsp : pySplit ':' k with _ | ⟨p0, _ | ⟨p1, ps⟩⟩
    · simp [hsp] at h
    · simp [hsp] at h
    · simp only [hsp] at h
      obtain ⟨new', hkts, hdk⟩ :=
        ih (kts0 ++ [p0 :: p1 :: ps]) (dictSet dk0 (.str p0) (.str p1)) kts dk h
      refine ⟨(p0 :: p1 :: ps) :: new', by simp [hkts], ?_⟩
      rw [hdk, List.map_cons, addKeys_cons]
      have : partsKey (p0 :: p1 :: ps) = .str p0 := rfl
      rw [this, dictSet_keys]

theorem hFieldLoop_keys (d : Protocol.DispatchFn) :
    ∀ (kts : List (List (List Char))) (item : List (PyValue × PyValue)) (s : St)
      (r : List (PyValue × PyValue)) (t : St),
      Protocol.hFieldLoopG d kts item s = .ok (r, t) →
      r.map Prod.fst = addKeys (item.map Prod.fst) (kts.map partsKey) := by
  intro kts
  induction kts with
  | nil =>
    intro item s r t h
    unfold Protocol.hFieldLoopG at h
    simp at h
    simp [addKeys_nil, h.1]
  | cons parts rest ih =>
    intro item s r t h
    unfold Protocol.hFieldLoopG at h
    rcases parts with _ | ⟨k, _ | ⟨tt, _ | ⟨x, xs⟩⟩⟩
    · simp at h
    · simp at h
    · simp only at h
      cases hd : d tt s with
      | error e => simp [hd] at h
      | ok pv =>
        obtain ⟨v, s1⟩ := pv
        simp only [hd] at h
        have := ih (dictSet item (.str k) v) s1 r t h
        rw [this, List.map_cons, addKeys_cons]
        have hpk : partsKey [k, tt] = .str k := rfl
        rw [hpk, dictSet_keys]
    · simp at h

theorem ptrLoop_length : ∀ (n : Nat) (s : St), (Protocol.ptrLoop n s).1.length = n := by
  intro n
  induction n with
  | zero => intro s; rfl
  | succ m ih =>
    intro s
    unfold Protocol.ptrLoop
    simp [ih]

theorem hItemLoop_shape (d : Protocol.DispatchFn) (plen : Nat) (kts : List (List (List Char))) :
    ∀ (n : Nat) (s : St) (items : List PyValue) (t : St),
      Protocol.hItemLoopG d plen kts n s = .ok (items, t) →
      (∀ k0 ∈ kts.map partsKey, keyEq (.str Protocol.pathKey) k0 = false) →
      ∀ it ∈ items, ∃ (ptrs : List PyValue) (fields : List (PyValue × PyValue)),
        it = .dict ((.str Protocol.pathKey, .list ptrs) :: fields) ∧
        ptrs.length = plen ∧
        fields.map Prod.fst = addKeys [] (kts.map partsKey) := by
  intro n
  induction n with
  | zero =>
    intro s items t h _ it hit
    unfold Protocol.hItemLoopG at h
    simp at h
    rw [h.1] at hit
    simp at hit
  | succ m ih =>
    intro s items t h hfresh it hit
    unfold Protocol.hItemLoopG at h
    rcases hpr : Protocol.ptrLoop plen s with ⟨ptrs0, s1⟩
    simp only [hpr] at h
    cases hf : Protocol.hFieldLoopG d kts [(.str Protocol.pathKey, .list [])] s1 with
    | error e => simp [hf] at h
    | ok pf =>
      obtain ⟨item1, s2⟩ := pf
      simp only [hf] at h
      cases hrest : Protocol.hItemLoopG d plen kts m s2 with
      | error e => simp [hrest] at h
      | ok prest =>
        obtain ⟨items', s3⟩ := prest
        simp only [hrest, Except.ok.injEq, Prod.mk.injEq] at h
        have hkeys := hFieldLoop_keys d kts [(.str Protocol.pathKey, .list [])] s1 item1 s2 hf
        rw [show ([((PyValue.str Protocol.pathKey), PyValue.list [])].map Prod.fst)
            = (PyValue.str Protocol.pathKey) :: [] from rfl] at hkeys
        rw [addKeys_fresh_head (kts.map partsKey) [] _ hfresh] at hkeys
        cases item1 with
        | nil => simp at hkeys
        | cons e tl =>
          obtain ⟨ek, ev⟩ := e
          simp only [List.map_cons, List.cons.injEq] at hkeys
          have hplen := ptrLoop_length plen s
          rw [hpr] at hplen
          have hset : dictSet ((ek, ev) :: tl) (.str Protocol.pathKey) (.list ptrs0)
              = (ek, .list ptrs0) :: tl := by
            unfold dictSet
            rw [hkeys.1, if_pos (keyEq_str_self _)]
          rw [hset] at h
          rw [← h.1] at hit
          rcases List.mem_cons.mp hit with rfl | hmem
          · refine ⟨ptrs0, tl, ?_, hplen, hkeys.2⟩
            rw [hkeys.1]
          · exact ih s2 items' s3 hrest hfresh it hmem

/-- C7: for every successfully decoded hdata value, every item is a dict
whose first entry is the reserved key holding exactly one pointer per path
segment (in path order) and whose remaining entries are exactly the fields
of the declared key mapping in declared order - for any dispatch behaviour
of the field decoders, provided no declared field uses the reserved key. -/
theorem C7_hdata_item_shape (d : Protocol.DispatchFn) (s s' : St) (v : PyValue)
    (h : Protocol._obj_hdataG d s = .ok (v, s')) :
    ∃ (pathVals : List PyValue) (kd : List (PyValue × PyValue)) (cnt : Int)
      (itemVals : List PyValue),
      v = .dict [(.str "path".toList, .list pathVals),
                 (.str "keys".toList, .dict kd),
                 (.str "count".toList, .int cnt),
                 (.str "items".toList, .list itemVals)] ∧
      ((kd.map Prod.fst).all (fun k => !keyEq (.str Protocol.pathKey) k) = true →
        ∀ it ∈ itemVals, ∃ (ptrs : List PyValue) (fields : List (PyValue × PyValue)),
          it = .dict ((.str Protocol.pathKey, .list ptrs) :: fields) ∧
          ptrs.length = pathVals.length ∧
          fields.map Prod.fst = kd.map Prod.fst) := by
  unfold Protocol._obj_hdataG at h
  rcases hrp : Protocol._obj_str s with ⟨pathOpt, sp⟩
  rcases hrk : Protocol._obj_str sp with ⟨keysOpt, sk⟩
  rcases hrc : Protocol._obj_int sk with ⟨cnt, sc⟩
  simp only [hrp, hrk, hrc] at h
  cases hk0 : Protocol.hdataKeysLoop [] [] (Protocol.splitKeysOpt keysOpt) with
  | error e => simp [hk0] at h
  | ok pk =>
    obtain ⟨kts, dk⟩ := pk
    simp only [hk0] at h
    cases hit0 : Protocol.hItemLoopG d (Protocol.splitPathOpt pathOpt).length kts cnt.toNat sc with
    | error e => simp [hit0] at h
    | ok pit =>
      obtain ⟨items, s4⟩ := pit
      simp only [hit0, Except.ok.injEq, Prod.mk.injEq] at h
      obtain ⟨new, hnew, hdkkeys⟩ := hdataKeysLoop_spec (Protocol.splitKeysOpt keysOpt) [] [] kts dk hk0
      rw [List.nil_append] at hnew
      subst hnew
      simp only [List.map_nil] at hdkkeys
      refine ⟨(Protocol.splitPathOpt pathOpt).map PyValue.str, dk, cnt, items, h.1.symm, ?_⟩
      intro hfresh it hitmem
      have hfresh' : ∀ k0 ∈ kts.map partsKey, keyEq (.str Protocol.pathKey) k0 = false := by
        apply addKeys_fresh_of_result (kts.map partsKey) [] (.str Protocol.pathKey)
        intro y hy
        rw [← hdkkeys] at hy
        have := List.all_eq_true.mp hfresh y hy
        simpa using this
      obtain ⟨ptrs, fields, hform, hlen, hfkeys⟩ :=
        hItemLoop_shape d (Protocol.splitPathOpt pathOpt).length kts cnt.toNat sc items s4
          hit0 hfresh' it hitmem
      refine ⟨ptrs, fields, hform, by simpa using hlen, by rw [hfkeys, hdkkeys]⟩

/-- C7 witness: hdata with path a, keys x:int, count 1, pointer 0x1, x=42. -/
theorem C7_witness :
    ∃ (pathVals : List PyValue) (kd : List (PyValue × PyValue)) (cnt : Int)
      (itemVals : List PyValue),
      (PyValue.dict [(.str "path".toList, .list [.str ['a']]),
                     (.str "keys".toList, .dict [(.str ['x'], .str "int".toList)]),
                     (.str "count".toList, .int 1),
                     (.str "items".toList, .list [.dict
                       [(.str Protocol.pathKey, .list [.str ['0', 'x', '1']]),
                        (.str ['x'], .int 42)]])])
        = .dict [(.str "path".toList, .list pathVals),
                 (.str "keys".toList, .dict kd),
                 (.str "count".toList, .int cnt),
                 (.str "items".toList, .list itemVals)] ∧
      ((kd.map Prod.fst).all (fun k => !keyEq (.str Protocol.pathKey) k) = true →
        ∀ it ∈ itemVals, ∃ (ptrs : List PyValue) (fields : List (PyValue × PyValue)),
          it = .dict ((.str Protocol.pathKey, .list ptrs) :: fields) ∧
          ptrs.length = pathVals.length ∧
          fields.map Prod.fst = kd.map Prod.fst) :=
  C7_hdata_item_shape Protocol.dispatch
    ([0, 0, 0, 1, 97] ++ [0, 0, 0, 5, 120, 58, 105, 110, 116] ++ [0, 0, 0, 1] ++ [1, 49] ++ [0, 0, 0, 42])
    []
    (.dict [(.str "path".toList, .list [.str ['a']]),
            (.str "keys".toList, .dict [(.str ['x'], .str "int".toList)]),
            (.str "count".toList, .int 1),
            (.str "items".toList, .list [.dict
              [(.str Protocol.pathKey, .list [.str ['0', 'x', '1']]),
               (.str ['x'], .int 42)]])])
    (by rfl)

/-! ### Claim C9: per-byte chr decoding of string payloads -/

theorem utf8Decode_cons (b : Nat) (rest : List Nat) :
    utf8Decode (b :: rest) =
      (if b < 128 then
        (utf8Decode rest).map (fun cs => Char.ofNat b :: cs)
      else if 194 ≤ b && b ≤ 223 then
        match rest with
        | c1 :: rest1 =>
          if isCont c1 then
            (utf8Decode rest1).map (fun cs => Char.ofNat ((b - 192) * 64 + (c1 - 128)) :: cs)
          else none
        | [] => none
      else if 224 ≤ b && b ≤ 239 then
        match rest with
        | c1 :: c2 :: rest2 =>
          if utf8Valid3 b c1 c2 then
            (utf8Decode rest2).map
              (fun cs => Char.ofNat (((b - 224) * 64 + (c1 - 128)) * 64 + (c2 - 128)) :: cs)
          else none
        | _ => none
      else if 240 ≤ b && b ≤ 244 then
        match rest with
        | c1 :: c2 :: c3 :: rest3 =>
          if utf8Valid4 b c1 c2 c3 then
            (utf8Decode rest3).map
              (fun cs =>
                Char.ofNat ((((b - 240) * 64 + (c1 - 128)) * 64 + (c2 - 128)) * 64 + (c3 - 128)) :: cs)
          else none
        | _ => none
      else none) := by
  cases rest with
  | nil => rfl
  | cons c1 rest1 =>
    cases rest1 with
    | nil => rfl
    | cons c2 rest2 =>
      cases rest2 with
      | nil => rfl
      | cons c3 rest3 => rfl

theorem utf8_ascii : ∀ (bs : List Nat), (∀ b ∈ bs, b < 128) →
    utf8Decode bs = some (bs.map Char.ofNat) := by
  intro bs
  induction bs with
  | nil => intro _; rfl
  | cons b rest ih =>
    intro h
    rw [utf8Decode_cons]
    rw [if_pos (h b (by simp))]
    rw [ih (fun b2 hb2 => h b2 (by simp [hb2]))]
    rfl

theorem utf8_len_aux : ∀ (n : Nat) (bs : List Nat), bs.length ≤ n →
    ∀ (cs : List Char), utf8Decode bs = some cs →
      cs.length ≤ bs.length ∧ (cs.length = bs.length → ∀ b ∈ bs, b < 128) := by
  intro n
  induction n with
  | zero =>
    intro bs hb cs h
    have hnil : bs = [] := List.length_eq_zero.mp (by omega)
    subst hnil
    have h0 : some ([] : List Char) = some cs := h
    simp only [Option.some.injEq] at h0
    subst h0
    exact ⟨by simp, fun _ => by intro b hb2; simp at hb2⟩
  | succ m ih =>
    intro bs hb cs h
    cases bs with
    | nil =>
      have h0 : some ([] : List Char) = some cs := h
      simp only [Option.some.injEq] at h0
      subst h0
      exact ⟨by simp, fun _ => by intro b hb2; simp at hb2⟩
    | cons b rest =>
      rw [utf8Decode_cons] at h
      by_cases h1 : b < 128
      · rw [if_pos h1] at h
        cases hr : utf8Decode rest with
        | none => rw [hr] at h; simp at h
        | some cs2 =>
          rw [hr] at h
          simp only [Option.map_some', Option.some.injEq] at h
          obtain ⟨hle, hall⟩ := ih rest (by simp at hb; omega) cs2 hr
          constructor
          · rw [← h]; simp; omega
          · intro heq b2 hb2
            rw [← h] at heq
            simp at heq
            rcases List.mem_cons.mp hb2 with rfl | hmem
            · exact h1
            · exact hall (by omega) b2 hmem
      · rw [if_neg h1] at h
        by_cases h2 : (194 ≤ b && b ≤ 223) = true
        · rw [if_pos h2] at h
          rcases rest with _ | ⟨c1, rest1⟩
          · have h0 : (none : Option (List Char)) = some cs := h
            simp at h0
          · have h0 : (if isCont c1 then
                (utf8Decode rest1).map (fun cs => Char.ofNat ((b - 192) * 64 + (c1 - 128)) :: cs)
                else none) = some cs := h
            by_cases hc : isCont c1 = true
            · rw [if_pos hc] at h0
              cases hr : utf8Decode rest1 with
              | none => rw [hr] at h0; simp at h0
              | some cs2 =>
                rw [hr] at h0
                simp only [Option.map_some', Option.some.injEq] at h0
                obtain ⟨hle, _⟩ := ih rest1 (by simp at hb; omega) cs2 hr
                constructor
                · rw [← h0]; simp; omega
                · intro heq
                  rw [← h0] at heq; simp at heq; omega
            · rw [if_neg hc] at h0; simp at h0
        · rw [if_neg h2] at h
          by_cases h3 : (224 ≤ b && b ≤ 239) = true
          · rw [if_pos h3] at h
            rcases rest with _ | ⟨c1, _ | ⟨c2, rest2⟩⟩
            · have h0 : (none : Option (List Char)) = some cs := h
              simp at h0
            · have h0 : (none : Option (List Char)) = some cs := h
              simp at h0
            · have h0 : (if utf8Valid3 b c1 c2 then
                  (utf8Decode rest2).map
                    (fun cs => Char.ofNat (((b - 224) * 64 + (c1 - 128)) * 64 + (c2 - 128)) :: cs)
                  else none) = some cs := h
              by_cases hv : utf8Valid3 b c1 c2 = true
              · rw [if_pos hv] at h0
                cases hr : utf8Decode rest2 with
                | none => rw [hr] at h0; simp at h0
                | some cs2 =>
                  rw [hr] at h0
                  simp only [Option.map_some', Option.some.injEq] at h0
                  obtain ⟨hle, _⟩ := ih rest2 (by simp at hb; omega) cs2 hr
                  constructor
                  · rw [← h0]; simp; omega
                  · intro heq
                    rw [← h0] at heq; simp at heq; omega
              · rw [if_neg hv] at h0; simp at h0
          · rw [if_neg h3] at h
            by_cases h4 : (240 ≤ b && b ≤ 244) = true
            · rw [if_pos h4] at h
              rcases rest with _ | ⟨c1, _ | ⟨c2, _ | ⟨c3, rest3⟩⟩⟩
              · have h0 : (none : Option (List Char)) = some cs := h
                simp at h0
              · have h0 : (none : Option (List Char)) = some cs := h
                simp at h0
              · have h0 : (none : Option (List Char)) = some cs := h
                simp at h0
              · have h0 : (if utf8Valid4 b c1 c2 c3 then
                    (utf8Decode rest3).map
                      (fun cs => Char.ofNat ((((b - 240) * 64 + (c1 - 128)) * 64 + (c2 - 128)) * 64
                        + (c3 - 128)) :: cs)
                    else none) = some cs := h
                by_cases hv : utf8Valid4 b c1 c2 c3 = true
                · rw [if_pos hv] at h0
                  cases hr : utf8Decode rest3 with
                  | none => rw [hr] at h0; simp at h0
                  | some cs2 =>
                    rw [hr] at h0
                    simp only [Option.map_some', Option.some.injEq] at h0
                    obtain ⟨hle, _⟩ := ih rest3 (by simp at hb; omega) cs2 hr
                    constructor
                    · rw [← h0]; simp; omega
                    · intro heq
                      rw [← h0] at heq; simp at heq; omega
                · rw [if_neg hv] at h0; simp at h0
            · rw [if_neg h4] at h
              simp at h

theorem utf8Decode_length (bs : List Nat) (cs : List Char) (h : utf8Decode bs = some cs) :
    cs.length ≤ bs.length ∧ (cs.length = bs.length → ∀ b ∈ bs, b < 128) :=
  utf8_len_aux bs.length bs (le_refl _) cs h

/-- C9: a string or buffer payload of declared length L > 0 decodes to the
per-byte chr mapping of its L payload bytes (Latin-1 style, one codepoint
per byte), and that value agrees with the strict UTF-8 decoding of the
payload exactly when the payload is pure ASCII. -/
theorem C9_latin1_string_decoding (L : Nat) (pay rest : St)
    (h1 : pay.length = L) (h2 : 0 < L) (h3 : L < 2 ^ 31) :
    Protocol._obj_len_data 4 (packInt32 (L : Int) ++ (pay ++ rest)) = (some (bytesChr pay), rest) ∧
    (utf8Decode pay = some (bytesChr pay) ↔ ∀ b ∈ pay, b < 128) := by
  constructor
  · rw [obj_len_data_four (packInt32 (L : Int)) (pay ++ rest) (packInt32_length _)]
    rw [int32_packInt32 L h3]
    rw [if_neg (show ¬(L : Int) < 0 by omega), if_pos (show (L : Int) > 0 by omega)]
    have htoNat : ((L : Int)).toNat = L := by omega
    rw [htoNat, ← h1, take_append_left, drop_append_left]
  · constructor
    · intro hdec
      have hl := utf8Decode_length pay (bytesChr pay) hdec
      exact hl.2 (by simp [bytesChr])
    · intro hall
      exact utf8_ascii pay hall

/-- C9 witness. -/
theorem C9_witness :
    Protocol._obj_len_data 4 (packInt32 ((2 : Nat) : Int) ++ ([104, 105] ++ [])) = (some (bytesChr [104, 105]), []) ∧
    (utf8Decode [104, 105] = some (bytesChr [104, 105]) ↔ ∀ b ∈ ([104, 105] : List Nat), b < 128) :=
  C9_latin1_string_decoding 2 [104, 105] [] (by decide) (by decide) (by decide)
